import Mathlib

/-!
Verification of the ChainLensTracker repository: an in-memory entity store
(MemStorage), the Express route handlers over it, and the pinning-client
helpers (formatFileSize, checkCidExists, verifyLineage).

JavaScript Map objects preserve insertion order: setting a fresh key appends
at the end, setting an existing key updates the value in place.  We embed the
per-entity Map objects of MemStorage as association lists with exactly those
semantics.  Timestamps (Date values) are embedded as natural numbers supplied
by the caller, since the claims never constrain their value.
-/

/-- A user record, as stored by MemStorage.createUser. -/
structure User where
  id : Nat
  username : String
  password : String
deriving DecidableEq, Repr

/-- The validated payload of createUser. -/
structure InsertUser where
  username : String
  password : String
deriving DecidableEq, Repr

/-- A dataset record, as stored by MemStorage.createDataset. -/
structure Dataset where
  id : Nat
  name : String
  description : String
  size : String
  status : String
  contentId : String
  uploadedAt : Nat
deriving DecidableEq, Repr

/-- The validated payload of createDataset (id and uploadedAt are assigned by the store). -/
structure InsertDataset where
  name : String
  description : String
  size : String
  status : String
  contentId : String
deriving DecidableEq, Repr

/-- A model record, as stored by MemStorage.createModel. -/
structure Model where
  id : Nat
  name : String
  description : String
  contentId : String
  createdAt : Nat
deriving DecidableEq, Repr

/-- The validated payload of createModel. -/
structure InsertModel where
  name : String
  description : String
  contentId : String
deriving DecidableEq, Repr

/-- A dataset-model relationship record, as stored by MemStorage.createRelationship. -/
structure Relationship where
  id : Nat
  datasetId : Nat
  modelId : Nat
  status : String
  usageDate : Nat
deriving DecidableEq, Repr

/-- The validated payload of createRelationship. -/
structure InsertRelationship where
  datasetId : Nat
  modelId : Nat
  status : String
deriving DecidableEq, Repr

/-- JavaScript Map.get: first (and, on well-formed states, only) binding of the key. -/
def mapGet (k : Nat) : List (Nat × α) → Option α
  | [] => none
  | (k₁, v) :: rest => if k₁ = k then some v else mapGet k rest

/-- JavaScript Map.set: replace the value of an existing key in place, else append. -/
def mapSet (k : Nat) (v : α) : List (Nat × α) → List (Nat × α)
  | [] => [(k, v)]
  | (k₁, v₁) :: rest =>
      if k₁ = k then (k, v) :: rest else (k₁, v₁) :: mapSet k v rest

/-- The state of MemStorage: four insertion-ordered maps and four id counters. -/
structure MemStorage where
  users : List (Nat × User)
  datasets : List (Nat × Dataset)
  models : List (Nat × Model)
  relationships : List (Nat × Relationship)
  userCurrentId : Nat
  datasetCurrentId : Nat
  modelCurrentId : Nat
  relationshipCurrentId : Nat
deriving DecidableEq, Repr

/-- MemStorage.createUser: assign the current user id, post-increment the counter. -/
def createUser (ins : InsertUser) (s : MemStorage) : User × MemStorage :=
  let id := s.userCurrentId
  let u : User := { id := id, username := ins.username, password := ins.password }
  (u, { s with users := mapSet id u s.users, userCurrentId := id + 1 })

/-- MemStorage.createDataset: assign id and uploadedAt timestamp, store, return record. -/
def createDataset (ins : InsertDataset) (now : Nat) (s : MemStorage) : Dataset × MemStorage :=
  let id := s.datasetCurrentId
  let d : Dataset :=
    { id := id, name := ins.name, description := ins.description, size := ins.size,
      status := ins.status, contentId := ins.contentId, uploadedAt := now }
  (d, { s with datasets := mapSet id d s.datasets, datasetCurrentId := id + 1 })

/-- MemStorage.createModel: assign id and createdAt timestamp, store, return record. -/
def createModel (ins : InsertModel) (now : Nat) (s : MemStorage) : Model × MemStorage :=
  let id := s.modelCurrentId
  let m : Model :=
    { id := id, name := ins.name, description := ins.description,
      contentId := ins.contentId, createdAt := now }
  (m, { s with models := mapSet id m s.models, modelCurrentId := id + 1 })

/-- MemStorage.createRelationship: assign id and usageDate timestamp, store, return record. -/
def createRelationship (ins : InsertRelationship) (now : Nat) (s : MemStorage) :
    Relationship × MemStorage :=
  let id := s.relationshipCurrentId
  let r : Relationship :=
    { id := id, datasetId := ins.datasetId, modelId := ins.modelId,
      status := ins.status, usageDate := now }
  (r, { s with relationships := mapSet id r s.relationships,
               relationshipCurrentId := id + 1 })

/-- MemStorage.getDatasets: Array.from of the Map values, in insertion order. -/
def getDatasets (s : MemStorage) : List Dataset := s.datasets.map Prod.snd

/-- MemStorage.getModels. -/
def getModels (s : MemStorage) : List Model := s.models.map Prod.snd

/-- MemStorage.getRelationships. -/
def getRelationships (s : MemStorage) : List Relationship := s.relationships.map Prod.snd

/-- MemStorage.getDataset. -/
def getDataset (id : Nat) (s : MemStorage) : Option Dataset := mapGet id s.datasets

/-- MemStorage.getModel. -/
def getModel (id : Nat) (s : MemStorage) : Option Model := mapGet id s.models

/-- MemStorage.updateDatasetStatus: if the id is bound, rebind it to a copy of the
record whose status field is replaced; otherwise return undefined (none). -/
def updateDatasetStatus (id : Nat) (status : String) (s : MemStorage) :
    Option Dataset × MemStorage :=
  match mapGet id s.datasets with
  | some d =>
      let d₁ := { d with status := status }
      (some d₁, { s with datasets := mapSet id d₁ s.datasets })
  | none => (none, s)

/-- MemStorage.updateRelationshipStatus: same shape as updateDatasetStatus. -/
def updateRelationshipStatus (id : Nat) (status : String) (s : MemStorage) :
    Option Relationship × MemStorage :=
  match mapGet id s.relationships with
  | some r =>
      let r₁ := { r with status := status }
      (some r₁, { s with relationships := mapSet id r₁ s.relationships })
  | none => (none, s)

/-- The MemStorage constructor state before the demo-user bootstrap. -/
def emptyStorage : MemStorage :=
  { users := [], datasets := [], models := [], relationships := [],
    userCurrentId := 1, datasetCurrentId := 1, modelCurrentId := 1,
    relationshipCurrentId := 1 }

/-- The state produced by the MemStorage constructor (which creates the demo user). -/
def initialStorage : MemStorage :=
  (createUser { username := "demo", password := "password" } emptyStorage).2

/-- One mutating call on the store, used to quantify over operation histories. -/
inductive StoreOp where
  | createUserOp (ins : InsertUser)
  | createDatasetOp (ins : InsertDataset) (now : Nat)
  | createModelOp (ins : InsertModel) (now : Nat)
  | createRelationshipOp (ins : InsertRelationship) (now : Nat)
  | updateDatasetStatusOp (id : Nat) (status : String)
  | updateRelationshipStatusOp (id : Nat) (status : String)
deriving DecidableEq, Repr

/-- Apply one store operation. -/
def applyOp (s : MemStorage) : StoreOp → MemStorage
  | .createUserOp ins => (createUser ins s).2
  | .createDatasetOp ins now => (createDataset ins now s).2
  | .createModelOp ins now => (createModel ins now s).2
  | .createRelationshipOp ins now => (createRelationship ins now s).2
  | .updateDatasetStatusOp id st => (updateDatasetStatus id st s).2
  | .updateRelationshipStatusOp id st => (updateRelationshipStatus id st s).2

/-- Run a sequence of store operations from a state. -/
def runOps (s : MemStorage) : List StoreOp → MemStorage
  | [] => s
  | op :: rest => runOps (applyOp s op) rest

/-- Well-formedness of one entity table: keys below the counter, no duplicate keys,
and each stored record carries its key as id. -/
def tableInv (getId : α → Nat) (l : List (Nat × α)) (ctr : Nat) : Prop :=
  (∀ p ∈ l, p.1 < ctr) ∧ (l.map Prod.fst).Nodup ∧ (∀ p ∈ l, getId p.2 = p.1)

/-- Well-formedness of the whole store. -/
def storeInv (s : MemStorage) : Prop :=
  tableInv User.id s.users s.userCurrentId ∧
  tableInv Dataset.id s.datasets s.datasetCurrentId ∧
  tableInv Model.id s.models s.modelCurrentId ∧
  tableInv Relationship.id s.relationships s.relationshipCurrentId

/-- An HTTP response produced by a route handler: either a JSON payload with a
status code, or an error object with a status code and message. -/
inductive RouteResp (α : Type) where
  | payload (status : Nat) (body : α)
  | failure (status : Nat) (message : String)
deriving DecidableEq, Repr

/-- A JSON value as seen by the route handlers, with JavaScript truthiness. -/
inductive JsValue where
  | undef
  | null
  | bool (b : Bool)
  | num (n : Int)
  | str (s : String)
deriving DecidableEq, Repr

/-- The status guard of the PATCH handlers.  The source tests
(!status || typeof status !== "string"); undefined, null, false, 0 and the
empty string are falsy and every non-string is rejected by the typeof test,
so the guard passes exactly for non-empty strings. -/
def statusOf : JsValue → Option String
  | .str s => if s = "" then none else some s
  | _ => none

/-- Lookup by the Number conversion of a path parameter.  A non-numeric :id
segment converts to NaN (modelled by none), and Map.get with NaN finds no
record because every stored key is an ordinary number. -/
def idParamGet (idNum : Option Nat) (l : List (Nat × α)) : Option α :=
  match idNum with
  | none => none
  | some n => mapGet n l

/-- GET /datasets/:id. -/
def getDatasetRoute (s : MemStorage) (idNum : Option Nat) : RouteResp Dataset :=
  match idParamGet idNum s.datasets with
  | none => .failure 404 "Dataset not found"
  | some d => .payload 200 d

/-- GET /models/:id. -/
def getModelRoute (s : MemStorage) (idNum : Option Nat) : RouteResp Model :=
  match idParamGet idNum s.models with
  | none => .failure 404 "Model not found"
  | some m => .payload 200 m

/-- PATCH /datasets/:id/status: status guard, then updateDatasetStatus, with the
not-found sentinel mapped to 404.  An id of none (NaN) makes the update a no-op
returning the sentinel, exactly as updateDatasetStatus does on an absent key. -/
def patchDatasetStatusRoute (s : MemStorage) (idNum : Option Nat) (body : JsValue) :
    RouteResp Dataset × MemStorage :=
  match statusOf body with
  | none => (.failure 400 "Status is required", s)
  | some st =>
      match idNum with
      | none => (.failure 404 "Dataset not found", s)
      | some n =>
          match updateDatasetStatus n st s with
          | (some d, s₁) => (.payload 200 d, s₁)
          | (none, s₁) => (.failure 404 "Dataset not found", s₁)

/-- PATCH /relationships/:id/status. -/
def patchRelationshipStatusRoute (s : MemStorage) (idNum : Option Nat) (body : JsValue) :
    RouteResp Relationship × MemStorage :=
  match statusOf body with
  | none => (.failure 400 "Status is required", s)
  | some st =>
      match idNum with
      | none => (.failure 404 "Relationship not found", s)
      | some n =>
          match updateRelationshipStatus n st s with
          | (some r, s₁) => (.payload 200 r, s₁)
          | (none, s₁) => (.failure 404 "Relationship not found", s₁)

/-- POST /relationships after schema validation: dataset existence check, then
model existence check, then the insert. -/
def postRelationshipRoute (s : MemStorage) (data : InsertRelationship) (now : Nat) :
    RouteResp Relationship × MemStorage :=
  match mapGet data.datasetId s.datasets with
  | none => (.failure 400 "Dataset not found", s)
  | some _ =>
      match mapGet data.modelId s.models with
      | none => (.failure 400 "Model not found", s)
      | some _ =>
          let r := createRelationship data now s
          (.payload 201 r.1, r.2)

/-- Fuel-bounded integer logarithm; with fuel at least n this computes the
largest i with b to the i at most n (for n at least 1, b at least 2). -/
def ilogAux (b : Nat) : Nat → Nat → Nat
  | 0, _ => 0
  | fuel + 1, n => if n < b then 0 else ilogAux b fuel (n / b) + 1

/-- Math.floor(Math.log(n) / Math.log(1024)) idealised to exact arithmetic.
Math.log is implementation-approximated in ECMAScript, so the only definite
semantics of the source expression is the exact base-1024 integer logarithm;
IEEE doubles agree with it everywhere except within a few ulps of 1024 pow 5. -/
def ilog1024 (n : Nat) : Nat := ilogAux 1024 n n

/-- The unit array of formatFileSize. -/
def sizesList : List String := ["Bytes", "KB", "MB", "GB", "TB"]

/-- JavaScript array indexing: out-of-range access yields undefined, which
string concatenation renders as "undefined". -/
def sizeUnit (i : Nat) : String := (sizesList.get? i).getD "undefined"

/-- parseFloat(x.toFixed(2)) rendered as a string, for the non-negative value
n100 / 100: toFixed(2) keeps two decimals and parseFloat drops trailing zeros.
The scaled value bytes / 1024 pow i is exactly representable as a double
(division by a power of two), so toFixed(2) is exact round-half-up there. -/
def trimFixed2 (n100 : Nat) : String :=
  let ip := n100 / 100
  let fp := n100 % 100
  if fp = 0 then toString ip
  else if fp % 10 = 0 then toString ip ++ "." ++ toString (fp / 10)
  else if fp < 10 then toString ip ++ ".0" ++ toString fp
  else toString ip ++ "." ++ toString fp

/-- formatFileSize (identical in the client pinning wrapper and in routes.ts):
zero maps to "0 Bytes", otherwise scale by the base-1024 logarithm, round the
scaled value half-up to two decimals, trim trailing zeros, append the unit.
The rounded numerator is (200 * bytes + 1024 pow i) / (2 * 1024 pow i), which
is floor of (100 * bytes / 1024 pow i + 1/2). -/
def formatFileSize (bytes : Nat) : String :=
  if bytes = 0 then "0 Bytes"
  else
    let i := ilog1024 bytes
    let pw := 1024 ^ i
    trimFixed2 ((200 * bytes + pw) / (2 * pw)) ++ " " ++ sizeUnit i

/-- A file written by multer to temporary storage before the handler runs. -/
structure TmpFile where
  path : String
  size : Nat
deriving DecidableEq, Repr

/-- The optional metadata form field of POST /ipfs/upload: absent, present but
failing JSON.parse, or present and parsed (content is its serialisation). -/
inductive MetaField where
  | absent
  | invalidJson
  | valid (content : String)
deriving DecidableEq, Repr

/-- The outcome of the lighthouse.upload call: a thrown error, or a resolved
response whose data.Hash may be missing. -/
inductive PinUpload where
  | throws
  | resolves (hash : Option String)
deriving DecidableEq, Repr

/-- The observable result of the upload endpoint: the HTTP response, the
temporary files still on disk, and the server-side error log. -/
structure UploadOutcome where
  response : RouteResp (String × String)
  disk : List String
  log : List String
deriving DecidableEq, Repr

/-- The temporary path the handler writes metadata.json to. -/
def metadataTmpPath : String := "/tmp/metadata.json"

/-- The extra temporary file created for a parsed metadata field. -/
def metaTmpFiles : MetaField → List TmpFile
  | .valid content => [{ path := metadataTmpPath, size := content.length }]
  | _ => []

/-- The cleanup loop of the upload handler: for each file, if it still exists
unlink it; a throwing unlink is caught and logged and the loop continues. -/
def cleanupFiles (files : List TmpFile) (unlinkFails : String → Bool)
    (disk log : List String) : List String × List String :=
  match files with
  | [] => (disk, log)
  | f :: rest =>
      if disk.contains f.path then
        if unlinkFails f.path then
          cleanupFiles rest unlinkFails disk (log ++ ["Error deleting temp file: " ++ f.path])
        else
          cleanupFiles rest unlinkFails (disk.filter (fun q => !(q == f.path))) log
      else cleanupFiles rest unlinkFails disk log

/-- POST /ipfs/upload.  Multer has already written reqFiles to temporary
storage when the handler starts.  The handler checks for files, then for the
credential, then parses the metadata field (writing metadata.json on success),
then awaits lighthouse.upload; only after that call resolves does the cleanup
loop run, after which the response is chosen by the presence of data.Hash.
A thrown upload is caught by the outer catch, which sends 500 directly. -/
def ipfsUploadRoute (reqFiles : List TmpFile) (apiKey : Option String)
    (metadata : MetaField) (pin : PinUpload) (unlinkFails : String → Bool) :
    UploadOutcome :=
  let disk₀ := reqFiles.map TmpFile.path
  if reqFiles.isEmpty then
    { response := .failure 400 "No files uploaded", disk := disk₀, log := [] }
  else
    match apiKey with
    | none =>
        { response := .failure 500 "Lighthouse API key not configured",
          disk := disk₀, log := [] }
    | some _ =>
        match metadata with
        | .invalidJson =>
            { response := .failure 400 "Invalid metadata JSON", disk := disk₀, log := [] }
        | _ =>
            let allFiles := reqFiles ++ metaTmpFiles metadata
            let disk₁ := disk₀ ++ (metaTmpFiles metadata).map TmpFile.path
            match pin with
            | .throws =>
                { response := .failure 500 "Failed to upload to IPFS/Filecoin",
                  disk := disk₁, log := [] }
            | .resolves h =>
                let totalSize := allFiles.foldl (fun acc f => acc + f.size) 0
                let cleaned := cleanupFiles allFiles unlinkFails disk₁ []
                match h with
                | none =>
                    { response := .failure 500 "Failed to get CID from Lighthouse",
                      disk := cleaned.1, log := cleaned.2 }
                | some hash =>
                    { response := .payload 200 (hash, formatFileSize totalSize),
                      disk := cleaned.1, log := cleaned.2 }

/-- checkCidExists: lighthouse.getUploads either throws (modelled by Except.error,
covering an unreachable service, a missing client key or a malformed response)
or yields the list of stored cids; any throw is caught and mapped to false,
otherwise the result is a linear membership scan. -/
def checkCidExists (uploads : Except String (List String)) (cid : String) : Bool :=
  match uploads with
  | .error _ => false
  | .ok l => l.contains cid

/-- verifyLineage: check the dataset and model cids, then the processing cid,
which the source guards with a truthiness test (if (processingCid)), so an
empty-string processing cid is skipped like an undefined one. -/
def verifyLineage (uploads : Except String (List String)) (datasetCid : String)
    (processingCid : Option String) (modelCid : String) : Bool :=
  let datasetExists := checkCidExists uploads datasetCid
  let modelExists := checkCidExists uploads modelCid
  if !datasetExists || !modelExists then false
  else
    match processingCid with
    | some p =>
        if p = "" then true
        else if !(checkCidExists uploads p) then false else true
    | none => true

/-- Fixture payloads for concrete witnesses. -/
def wInsertUser : InsertUser := { username := "u", password := "p" }

/-- Fixture dataset payload. -/
def wInsertDataset : InsertDataset :=
  { name := "A", description := "d", size := "1 GB", status := "pending",
    contentId := "cidA" }

/-- Fixture model payload. -/
def wInsertModel : InsertModel :=
  { name := "M", description := "m", contentId := "cidM" }

/-- Fixture relationship payload referencing dataset 1 and model 1. -/
def wInsertRel : InsertRelationship :=
  { datasetId := 1, modelId := 1, status := "pending" }

/-- A concrete store holding dataset 1 and model 1. -/
def wStore : MemStorage :=
  (createModel wInsertModel 9 (createDataset wInsertDataset 7 initialStorage).2).2

/-! Association-list lemmas mirroring JavaScript Map behaviour. -/

theorem mapGet_eq_none_iff (k : Nat) (l : List (Nat × α)) :
    mapGet k l = none ↔ k ∉ l.map Prod.fst := by
  induction l with
  | nil => simp [mapGet]
  | cons p rest ih =>
      obtain ⟨k₁, v⟩ := p
      by_cases h : k₁ = k
      · subst h
        simp [mapGet]
      · simp only [mapGet, if_neg h, List.map_cons, List.mem_cons, not_or, ih]
        constructor
        · intro hk
          exact ⟨fun hkk => h hkk.symm, hk⟩
        · intro hk
          exact hk.2

theorem mapSet_of_not_mem (k : Nat) (v : α) (l : List (Nat × α))
    (h : k ∉ l.map Prod.fst) : mapSet k v l = l ++ [(k, v)] := by
  induction l with
  | nil => simp [mapSet]
  | cons p rest ih =>
      obtain ⟨k₁, v₁⟩ := p
      simp only [List.map_cons, List.mem_cons, not_or] at h
      have hne : ¬ k₁ = k := fun hh => h.1 hh.symm
      simp [mapSet, hne, ih h.2]

theorem mapSet_keys_of_mem (k : Nat) (v : α) (l : List (Nat × α))
    (h : k ∈ l.map Prod.fst) :
    (mapSet k v l).map Prod.fst = l.map Prod.fst := by
  induction l with
  | nil => simp at h
  | cons p rest ih =>
      obtain ⟨k₁, v₁⟩ := p
      by_cases hk : k₁ = k
      · subst hk
        simp [mapSet]
      · simp only [List.map_cons, List.mem_cons] at h
        rcases h with h | h
        · exact absurd h.symm hk
        · simp [mapSet, hk, ih h]

theorem mapSet_eq_map_of_nodup (k : Nat) (v : α) (l : List (Nat × α))
    (hnd : (l.map Prod.fst).Nodup) (w : α) (hw : mapGet k l = some w) :
    mapSet k v l = l.map (fun p => if p.1 = k then (k, v) else p) := by
  induction l with
  | nil => simp [mapGet] at hw
  | cons p rest ih =>
      obtain ⟨k₁, v₁⟩ := p
      simp only [List.map_cons, List.nodup_cons] at hnd
      by_cases hk : k₁ = k
      · subst hk
        have hrest : rest.map (fun p => if p.1 = k₁ then (k₁, v) else p) = rest := by
          have hfix : ∀ q ∈ rest, (if q.1 = k₁ then ((k₁, v) : Nat × α) else q) = q := by
            intro q hq
            have hne : ¬ q.1 = k₁ := by
              intro hq₁
              exact hnd.1 (hq₁ ▸ List.mem_map_of_mem Prod.fst hq)
            simp [hne]
          calc rest.map (fun p => if p.1 = k₁ then (k₁, v) else p) = rest.map id :=
                List.map_congr_left hfix
            _ = rest := List.map_id rest
        simp [mapSet, hrest]
      · have hw₁ : mapGet k rest = some w := by
          simpa [mapGet, hk] using hw
        simp [mapSet, hk, ih hnd.2 hw₁]

theorem mapGet_of_lt_ctr (l : List (Nat × α)) (ctr : Nat)
    (h : ∀ p ∈ l, p.1 < ctr) : mapGet ctr l = none := by
  rw [mapGet_eq_none_iff]
  intro hmem
  obtain ⟨p, hp, hp₁⟩ := List.mem_map.mp hmem
  exact absurd (hp₁ ▸ h p hp) (lt_irrefl ctr)

theorem mapGet_eq_some_mem (k : Nat) (l : List (Nat × α)) (w : α)
    (hw : mapGet k l = some w) : (k, w) ∈ l := by
  induction l with
  | nil => simp [mapGet] at hw
  | cons p rest ih =>
      obtain ⟨k₁, v₁⟩ := p
      by_cases hk : k₁ = k
      · subst hk
        have hvw : v₁ = w := by simpa [mapGet] using hw
        subst hvw
        exact List.mem_cons_self _ _
      · simp only [mapGet, if_neg hk] at hw
        exact List.mem_cons_of_mem _ (ih hw)

theorem mapSet_mem_cases (k : Nat) (v : α) (l : List (Nat × α)) (p : Nat × α)
    (hp : p ∈ mapSet k v l) : p ∈ l ∨ p = (k, v) := by
  induction l with
  | nil => simp [mapSet] at hp; simp [hp]
  | cons q rest ih =>
      obtain ⟨k₁, v₁⟩ := q
      by_cases hk : k₁ = k
      · subst hk
        have hp₁ : p = (k₁, v) ∨ p ∈ rest := by simpa [mapSet] using hp
        rcases hp₁ with hp₁ | hp₁
        · exact Or.inr hp₁
        · exact Or.inl (List.mem_cons_of_mem _ hp₁)
      · simp only [mapSet, if_neg hk, List.mem_cons] at hp
        rcases hp with hp | hp
        · exact Or.inl (hp ▸ List.mem_cons_self _ _)
        · rcases ih hp with h | h
          · exact Or.inl (List.mem_cons_of_mem _ h)
          · exact Or.inr h

theorem tableInv_insert (getId : α → Nat) (l : List (Nat × α)) (ctr : Nat)
    (h : tableInv getId l ctr) (v : α) (hv : getId v = ctr) :
    tableInv getId (mapSet ctr v l) (ctr + 1) := by
  obtain ⟨hlt, hnd, hid⟩ := h
  have hnotmem : ctr ∉ l.map Prod.fst := by
    intro hmem
    obtain ⟨p, hp, hp₁⟩ := List.mem_map.mp hmem
    exact absurd (hp₁ ▸ hlt p hp) (lt_irrefl ctr)
  rw [mapSet_of_not_mem ctr v l hnotmem]
  refine ⟨?_, ?_, ?_⟩
  · intro p hp
    rcases List.mem_append.mp hp with hp | hp
    · exact Nat.lt_succ_of_lt (hlt p hp)
    · simp only [List.mem_singleton] at hp
      simp [hp]
  · rw [List.map_append]
    rw [List.nodup_append]
    refine ⟨hnd, List.nodup_singleton _, ?_⟩
    intro a ha hb
    simp only [List.map_cons, List.map_nil, List.mem_singleton] at hb
    exact hnotmem (hb ▸ ha)
  · intro p hp
    rcases List.mem_append.mp hp with hp | hp
    · exact hid p hp
    · simp only [List.mem_singleton] at hp
      simp [hp, hv]

theorem tableInv_update (getId : α → Nat) (l : List (Nat × α)) (ctr k : Nat)
    (h : tableInv getId l ctr) (w v : α) (hw : mapGet k l = some w) (hv : getId v = k) :
    tableInv getId (mapSet k v l) ctr := by
  obtain ⟨hlt, hnd, hid⟩ := h
  have hkmem : k ∈ l.map Prod.fst :=
    List.mem_map_of_mem Prod.fst (mapGet_eq_some_mem k l w hw)
  have hklt : k < ctr := hlt (k, w) (mapGet_eq_some_mem k l w hw)
  refine ⟨?_, ?_, ?_⟩
  · intro p hp
    rcases mapSet_mem_cases k v l p hp with hp | hp
    · exact hlt p hp
    · simp [hp, hklt]
  · rw [mapSet_keys_of_mem k v l hkmem]
    exact hnd
  · intro p hp
    rcases mapSet_mem_cases k v l p hp with hp | hp
    · exact hid p hp
    · simp [hp, hv]

theorem storeInv_applyOp (s : MemStorage) (op : StoreOp) (h : storeInv s) :
    storeInv (applyOp s op) := by
  obtain ⟨hu, hd, hm, hr⟩ := h
  cases op with
  | createUserOp ins =>
      exact ⟨tableInv_insert User.id s.users s.userCurrentId hu _ rfl, hd, hm, hr⟩
  | createDatasetOp ins now =>
      exact ⟨hu, tableInv_insert Dataset.id s.datasets s.datasetCurrentId hd _ rfl, hm, hr⟩
  | createModelOp ins now =>
      exact ⟨hu, hd, tableInv_insert Model.id s.models s.modelCurrentId hm _ rfl, hr⟩
  | createRelationshipOp ins now =>
      exact ⟨hu, hd, hm,
        tableInv_insert Relationship.id s.relationships s.relationshipCurrentId hr _ rfl⟩
  | updateDatasetStatusOp id st =>
      show storeInv (updateDatasetStatus id st s).2
      unfold updateDatasetStatus
      cases hg : mapGet id s.datasets with
      | none => exact ⟨hu, hd, hm, hr⟩
      | some d =>
          have hidd : d.id = id := hd.2.2 (id, d) (mapGet_eq_some_mem id s.datasets d hg)
          exact ⟨hu,
            tableInv_update Dataset.id s.datasets s.datasetCurrentId id hd d _ hg hidd,
            hm, hr⟩
  | updateRelationshipStatusOp id st =>
      show storeInv (updateRelationshipStatus id st s).2
      unfold updateRelationshipStatus
      cases hg : mapGet id s.relationships with
      | none => exact ⟨hu, hd, hm, hr⟩
      | some r =>
          have hidr : r.id = id := hr.2.2 (id, r) (mapGet_eq_some_mem id s.relationships r hg)
          exact ⟨hu, hd, hm,
            tableInv_update Relationship.id s.relationships s.relationshipCurrentId id hr
              r _ hg hidr⟩

theorem storeInv_runOps (ops : List StoreOp) (s : MemStorage) (h : storeInv s) :
    storeInv (runOps s ops) := by
  induction ops generalizing s with
  | nil => exact h
  | cons op rest ih => exact ih (applyOp s op) (storeInv_applyOp s op h)

theorem storeInv_initial : storeInv initialStorage := by
  refine ⟨?_, ?_, ?_, ?_⟩ <;>
    simp [initialStorage, emptyStorage, createUser, tableInv, mapSet]

/-- Claim C2: for every store state and id, updateDatasetStatus and
updateRelationshipStatus return the not-found sentinel and leave the store
unchanged when the id is absent; when the id is present they return a record
whose status field is the new value and whose every other field (id, name,
description, size, contentId, timestamp, foreign keys) equals the stored
record from before the call. -/
theorem updateStatus_frame (s : MemStorage) (id : Nat) (st : String) :
    (mapGet id s.datasets = none → updateDatasetStatus id st s = (none, s)) ∧
    (∀ d, mapGet id s.datasets = some d →
      ∃ d₁, (updateDatasetStatus id st s).1 = some d₁ ∧ d₁.status = st ∧
        d₁.id = d.id ∧ d₁.name = d.name ∧ d₁.description = d.description ∧
        d₁.size = d.size ∧ d₁.contentId = d.contentId ∧
        d₁.uploadedAt = d.uploadedAt) ∧
    (mapGet id s.relationships = none → updateRelationshipStatus id st s = (none, s)) ∧
    (∀ r, mapGet id s.relationships = some r →
      ∃ r₁, (updateRelationshipStatus id st s).1 = some r₁ ∧ r₁.status = st ∧
        r₁.id = r.id ∧ r₁.datasetId = r.datasetId ∧ r₁.modelId = r.modelId ∧
        r₁.usageDate = r.usageDate) := by
  refine ⟨?_, ?_, ?_, ?_⟩
  · intro h
    simp [updateDatasetStatus, h]
  · intro d h
    exact ⟨{ d with status := st }, by simp [updateDatasetStatus, h], rfl, rfl, rfl, rfl,
      rfl, rfl, rfl⟩
  · intro h
    simp [updateRelationshipStatus, h]
  · intro r h
    exact ⟨{ r with status := st }, by simp [updateRelationshipStatus, h], rfl, rfl, rfl,
      rfl, rfl⟩

/-- Witness for claim C2 at a concrete store: id 99 is absent, id 1 is present. -/
theorem updateStatus_frame_witness :
    updateDatasetStatus 99 "verified" wStore = (none, wStore) ∧
    (updateDatasetStatus 1 "verified" wStore).1.map Dataset.status = some "verified" ∧
    (updateDatasetStatus 1 "verified" wStore).1.map Dataset.name = some "A" := by
  refine ⟨?_, ?_, ?_⟩
  · exact (updateStatus_frame wStore 99 "verified").1 (by decide)
  all_goals
    obtain ⟨d₁, h₁, hst, _, hn, _, _, _, _⟩ :=
      (updateStatus_frame wStore 1 "verified").2.1
        { id := 1, name := "A", description := "d", size := "1 GB",
          status := "pending", contentId := "cidA", uploadedAt := 7 } (by decide)
  · rw [h₁]
    simpa using hst
  · rw [h₁]
    simpa using hn

/-- Claim C1: POST /relationships on a validated body checks the dataset first
(400 naming the dataset, regardless of the model id), then the model (400
naming the model), and only when both exist does it perform the insert; on
both error paths the store is returned unchanged. -/
theorem postRelationship_checks (s : MemStorage) (data : InsertRelationship) (now : Nat) :
    (getDataset data.datasetId s = none →
      postRelationshipRoute s data now = (.failure 400 "Dataset not found", s)) ∧
    (∀ d, getDataset data.datasetId s = some d → getModel data.modelId s = none →
      postRelationshipRoute s data now = (.failure 400 "Model not found", s)) ∧
    (∀ d m, getDataset data.datasetId s = some d → getModel data.modelId s = some m →
      postRelationshipRoute s data now =
        (.payload 201 (createRelationship data now s).1,
         (createRelationship data now s).2)) := by
  refine ⟨?_, ?_, ?_⟩
  · intro h
    simp only [getDataset] at h
    simp [postRelationshipRoute, h]
  · intro d hd hm
    simp only [getDataset] at hd
    simp only [getModel] at hm
    simp [postRelationshipRoute, hd, hm]
  · intro d m hd hm
    simp only [getDataset] at hd
    simp only [getModel] at hm
    simp [postRelationshipRoute, hd, hm]

/-- Witness for claim C1 at the concrete store wStore (dataset 1, model 1). -/
theorem postRelationship_checks_witness :
    postRelationshipRoute wStore { wInsertRel with datasetId := 9 } 3 =
      (.failure 400 "Dataset not found", wStore) ∧
    postRelationshipRoute wStore { wInsertRel with modelId := 9 } 3 =
      (.failure 400 "Model not found", wStore) ∧
    postRelationshipRoute wStore wInsertRel 3 =
      (.payload 201 (createRelationship wInsertRel 3 wStore).1,
       (createRelationship wInsertRel 3 wStore).2) := by
  refine ⟨?_, ?_, ?_⟩
  · exact (postRelationship_checks wStore { wInsertRel with datasetId := 9 } 3).1
      (by decide)
  · exact (postRelationship_checks wStore { wInsertRel with modelId := 9 } 3).2.1
      { id := 1, name := "A", description := "d", size := "1 GB",
        status := "pending", contentId := "cidA", uploadedAt := 7 }
      (by decide) (by decide)
  · exact (postRelationship_checks wStore wInsertRel 3).2.2
      { id := 1, name := "A", description := "d", size := "1 GB",
        status := "pending", contentId := "cidA", uploadedAt := 7 }
      { id := 1, name := "M", description := "m", contentId := "cidM", createdAt := 9 }
      (by decide) (by decide)

/-- Claim C10: when the uploads listing throws, checkCidExists returns false
instead of propagating; verifyLineage consequently returns false (both are
total functions, so no exception escapes); and an outage is indistinguishable
from the identifier being absent from an empty listing. -/
theorem checkCidExists_error_false (e cid datasetCid modelCid : String)
    (processingCid : Option String) :
    checkCidExists (.error e) cid = false ∧
    verifyLineage (.error e) datasetCid processingCid modelCid = false ∧
    checkCidExists (.error e) cid = checkCidExists (.ok []) cid := by
  refine ⟨rfl, ?_, by simp [checkCidExists]⟩
  simp [verifyLineage, checkCidExists]

/-- Claim C3 fails as stated: with uploads listing exactly "a" and "b", the
processing identifier is present (the empty string is a string value, not
undefined) and fails the existence check, yet verifyLineage returns true,
because the source guards the processing check with a truthiness test that
skips the empty string. -/
theorem verifyLineage_emptyProcessing_cex :
    verifyLineage (.ok ["a", "b"]) "a" (some "") "b" = true ∧
    checkCidExists (.ok ["a", "b"]) "" = false := by
  exact ⟨by decide, by decide⟩

/-- Claim C3 amended: verifyLineage returns true exactly when the dataset and
model identifiers resolve and every present non-empty processing identifier
resolves; an empty-string processing identifier is treated as absent (the
truthiness guard), and any failing checked identifier yields false. -/
theorem verifyLineage_spec (uploads : Except String (List String))
    (datasetCid modelCid : String) (processingCid : Option String) :
    verifyLineage uploads datasetCid processingCid modelCid = true ↔
      (checkCidExists uploads datasetCid = true ∧
       checkCidExists uploads modelCid = true ∧
       ∀ p, processingCid = some p → p ≠ "" → checkCidExists uploads p = true) := by
  unfold verifyLineage
  cases hd : checkCidExists uploads datasetCid with
  | false => simp [hd]
  | true =>
      cases hm : checkCidExists uploads modelCid with
      | false => simp [hm]
      | true =>
          cases processingCid with
          | none => simp
          | some p =>
              by_cases hp : p = ""
              · subst hp
                simp
              · cases hc : checkCidExists uploads p with
                | false => simp [hp, hc]
                | true => simp [hp, hc]

/-- Witness for claim C3 (amended) on controlled existence sets: dataset and
model exist with no processing id gives true; dataset exists and model is
missing gives false. -/
theorem verifyLineage_spec_witness :
    verifyLineage (.ok ["a", "b"]) "a" none "b" = true ∧
    verifyLineage (.ok ["a"]) "a" none "b" = false := by
  constructor
  · exact (verifyLineage_spec (.ok ["a", "b"]) "a" "b" none).mpr
      ⟨by decide, by decide, fun p hp => by cases hp⟩
  · cases hv : verifyLineage (.ok ["a"]) "a" none "b" with
    | false => rfl
    | true =>
        obtain ⟨_, hm, _⟩ := (verifyLineage_spec (.ok ["a"]) "a" "b" none).mp hv
        exact absurd hm (by decide)

/-- Claim C8 fails as stated: with an existing dataset and a status field that
is present and is a string, namely the empty string, the PATCH handler returns
400, not 200, because the truthiness guard rejects the empty string. -/
theorem patchStatus_emptyString_cex :
    (patchDatasetStatusRoute wStore (some 1) (JsValue.str "")).1 =
      .failure 400 "Status is required" ∧
    idParamGet (some 1) wStore.datasets ≠ none := by
  exact ⟨rfl, by decide⟩

/-- Claim C8 amended: PATCH status responds 400 exactly when the status field
is not a non-empty string (missing, non-string, or empty); with a non-empty
string status it responds 404 with the store unchanged when the entity is
absent, and 200 with the record updated only in status when present; for both
datasets and relationships. -/
theorem patchStatus_response_spec (s : MemStorage) (idNum : Option Nat) (body : JsValue) :
    ((patchDatasetStatusRoute s idNum body).1 = .failure 400 "Status is required" ↔
      (∀ t, body = JsValue.str t → t = "")) ∧
    (∀ st, body = JsValue.str st → st ≠ "" → idParamGet idNum s.datasets = none →
      patchDatasetStatusRoute s idNum body = (.failure 404 "Dataset not found", s)) ∧
    (∀ st d, body = JsValue.str st → st ≠ "" → idParamGet idNum s.datasets = some d →
      (patchDatasetStatusRoute s idNum body).1 = .payload 200 { d with status := st }) ∧
    ((patchRelationshipStatusRoute s idNum body).1 = .failure 400 "Status is required" ↔
      (∀ t, body = JsValue.str t → t = "")) ∧
    (∀ st, body = JsValue.str st → st ≠ "" → idParamGet idNum s.relationships = none →
      patchRelationshipStatusRoute s idNum body =
        (.failure 404 "Relationship not found", s)) ∧
    (∀ st r, body = JsValue.str st → st ≠ "" → idParamGet idNum s.relationships = some r →
      (patchRelationshipStatusRoute s idNum body).1 =
        .payload 200 { r with status := st }) := by
  refine ⟨?_, ?_, ?_, ?_, ?_, ?_⟩
  · cases body with
    | str t =>
        by_cases ht : t = ""
        · subst ht
          simp [patchDatasetStatusRoute, statusOf]
        · constructor
          · intro h
            exfalso
            rcases hid : idParamGet idNum s.datasets with _ | d
            · cases idNum with
              | none => simp [patchDatasetStatusRoute, statusOf, ht] at h
              | some n =>
                  simp only [idParamGet] at hid
                  simp [patchDatasetStatusRoute, statusOf, ht, updateDatasetStatus,
                    hid] at h
            · cases idNum with
              | none => simp [idParamGet] at hid
              | some n =>
                  simp only [idParamGet] at hid
                  simp [patchDatasetStatusRoute, statusOf, ht, updateDatasetStatus,
                    hid] at h
          · intro h
            exact absurd (h t rfl) ht
    | undef => simp [patchDatasetStatusRoute, statusOf]
    | null => simp [patchDatasetStatusRoute, statusOf]
    | bool b => simp [patchDatasetStatusRoute, statusOf]
    | num n => simp [patchDatasetStatusRoute, statusOf]
  · intro st hb hst hid
    subst hb
    cases idNum with
    | none => simp [patchDatasetStatusRoute, statusOf, hst]
    | some n =>
        simp only [idParamGet] at hid
        simp [patchDatasetStatusRoute, statusOf, hst, updateDatasetStatus, hid]
  · intro st d hb hst hid
    subst hb
    cases idNum with
    | none => simp [idParamGet] at hid
    | some n =>
        simp only [idParamGet] at hid
        simp [patchDatasetStatusRoute, statusOf, hst, updateDatasetStatus, hid]
  · cases body with
    | str t =>
        by_cases ht : t = ""
        · subst ht
          simp [patchRelationshipStatusRoute, statusOf]
        · constructor
          · intro h
            exfalso
            rcases hid : idParamGet idNum s.relationships with _ | r
            · cases idNum with
              | none => simp [patchRelationshipStatusRoute, statusOf, ht] at h
              | some n =>
                  simp only [idParamGet] at hid
                  simp [patchRelationshipStatusRoute, statusOf, ht,
                    updateRelationshipStatus, hid] at h
            · cases idNum with
              | none => simp [idParamGet] at hid
              | some n =>
                  simp only [idParamGet] at hid
                  simp [patchRelationshipStatusRoute, statusOf, ht,
                    updateRelationshipStatus, hid] at h
          · intro h
            exact absurd (h t rfl) ht
    | undef => simp [patchRelationshipStatusRoute, statusOf]
    | null => simp [patchRelationshipStatusRoute, statusOf]
    | bool b => simp [patchRelationshipStatusRoute, statusOf]
    | num n => simp [patchRelationshipStatusRoute, statusOf]
  · intro st hb hst hid
    subst hb
    cases idNum with
    | none => simp [patchRelationshipStatusRoute, statusOf, hst]
    | some n =>
        simp only [idParamGet] at hid
        simp [patchRelationshipStatusRoute, statusOf, hst, updateRelationshipStatus, hid]
  · intro st r hb hst hid
    subst hb
    cases idNum with
    | none => simp [idParamGet] at hid
    | some n =>
        simp only [idParamGet] at hid
        simp [patchRelationshipStatusRoute, statusOf, hst, updateRelationshipStatus, hid]

/-- Witness for claim C8 (amended) at the concrete store wStore. -/
theorem patchStatus_response_spec_witness :
    (patchDatasetStatusRoute wStore (some 1) (JsValue.str "verified")).1 =
      .payload 200
        { id := 1, name := "A", description := "d", size := "1 GB",
          status := "verified", contentId := "cidA", uploadedAt := 7 } ∧
    patchDatasetStatusRoute wStore (some 99) (JsValue.str "verified") =
      (.failure 404 "Dataset not found", wStore) ∧
    (patchDatasetStatusRoute wStore (some 1) JsValue.null).1 =
      .failure 400 "Status is required" := by
  refine ⟨?_, ?_, ?_⟩
  · exact (patchStatus_response_spec wStore (some 1) (JsValue.str "verified")).2.2.1
      "verified"
      { id := 1, name := "A", description := "d", size := "1 GB",
        status := "pending", contentId := "cidA", uploadedAt := 7 }
      rfl (by decide) (by decide)
  · exact (patchStatus_response_spec wStore (some 99) (JsValue.str "verified")).2.1
      "verified" rfl (by decide) (by decide)
  · exact ((patchStatus_response_spec wStore (some 1) JsValue.null).1).mpr
      (fun t ht => JsValue.noConfusion ht)

/-- Claim C9 fails as stated: a PATCH whose :id is non-numeric (NaN) but whose
body lacks the status field responds 400, not 404, because the status guard
runs before any lookup. -/
theorem patch_nonNumericId_cex :
    (patchDatasetStatusRoute initialStorage none JsValue.undef).1 =
      .failure 400 "Status is required" ∧
    (patchDatasetStatusRoute initialStorage none JsValue.undef).1 ≠
      .failure 404 "Dataset not found" := by
  exact ⟨rfl, by decide⟩

/-- Claim C9 amended: a GET by-id request with a non-numeric :id (Number gives
NaN, modelled by none, and the Map lookup finds no record) responds 404 with
the fixed not-found message; a PATCH with a non-numeric :id responds 404 when
its body passes the status guard and 400 when it does not; the handlers are
total functions, so no exception escapes and 500 is never produced. -/
theorem nonNumericId_responses (s : MemStorage) (body : JsValue) (st : String) :
    getDatasetRoute s none = .failure 404 "Dataset not found" ∧
    getModelRoute s none = .failure 404 "Model not found" ∧
    (body = JsValue.str st → st ≠ "" →
      (patchDatasetStatusRoute s none body).1 = .failure 404 "Dataset not found" ∧
      (patchRelationshipStatusRoute s none body).1 =
        .failure 404 "Relationship not found") ∧
    ((∀ t, body = JsValue.str t → t = "") →
      (patchDatasetStatusRoute s none body).1 = .failure 400 "Status is required" ∧
      (patchRelationshipStatusRoute s none body).1 =
        .failure 400 "Status is required") := by
  refine ⟨rfl, rfl, ?_, ?_⟩
  · intro hb hst
    subst hb
    exact ⟨by simp [patchDatasetStatusRoute, statusOf, hst],
      by simp [patchRelationshipStatusRoute, statusOf, hst]⟩
  · intro hb
    cases body with
    | str t =>
        have ht : t = "" := hb t rfl
        subst ht
        exact ⟨by simp [patchDatasetStatusRoute, statusOf],
          by simp [patchRelationshipStatusRoute, statusOf]⟩
    | undef => exact ⟨rfl, rfl⟩
    | null => exact ⟨rfl, rfl⟩
    | bool b => exact ⟨rfl, rfl⟩
    | num n => exact ⟨rfl, rfl⟩

/-- Witness for claim C9 (amended) at concrete requests. -/
theorem nonNumericId_responses_witness :
    getDatasetRoute initialStorage none = .failure 404 "Dataset not found" ∧
    (patchDatasetStatusRoute initialStorage none (JsValue.str "verified")).1 =
      .failure 404 "Dataset not found" ∧
    (patchRelationshipStatusRoute initialStorage none JsValue.undef).1 =
      .failure 400 "Status is required" := by
  refine ⟨?_, ?_, ?_⟩
  · exact (nonNumericId_responses initialStorage JsValue.undef "x").1
  · exact ((nonNumericId_responses initialStorage (JsValue.str "verified")
      "verified").2.2.1 rfl (by decide)).1
  · exact ((nonNumericId_responses initialStorage JsValue.undef "x").2.2.2
      (fun t ht => JsValue.noConfusion ht)).2

/-- Claim C4: on every reachable store state, each create call returns a record
whose id is distinct from every id already stored for that entity kind (no
record is ever deleted, so stored keys are exactly the previously assigned
ids), and an immediately following create of the same kind returns a strictly
larger id; together the assigned ids are unique, strictly increasing within a
store instance, and never reused. -/
theorem create_ids_unique_monotone (ops : List StoreOp) (iu : InsertUser)
    (idt : InsertDataset) (im : InsertModel) (ir : InsertRelationship) (n₁ n₂ : Nat) :
    ((createUser iu (runOps initialStorage ops)).1.id ∉
        (runOps initialStorage ops).users.map Prod.fst) ∧
    (createUser iu (createUser iu (runOps initialStorage ops)).2).1.id >
        (createUser iu (runOps initialStorage ops)).1.id ∧
    ((createDataset idt n₁ (runOps initialStorage ops)).1.id ∉
        (runOps initialStorage ops).datasets.map Prod.fst) ∧
    (createDataset idt n₂ (createDataset idt n₁ (runOps initialStorage ops)).2).1.id >
        (createDataset idt n₁ (runOps initialStorage ops)).1.id ∧
    ((createModel im n₁ (runOps initialStorage ops)).1.id ∉
        (runOps initialStorage ops).models.map Prod.fst) ∧
    (createModel im n₂ (createModel im n₁ (runOps initialStorage ops)).2).1.id >
        (createModel im n₁ (runOps initialStorage ops)).1.id ∧
    ((createRelationship ir n₁ (runOps initialStorage ops)).1.id ∉
        (runOps initialStorage ops).relationships.map Prod.fst) ∧
    (createRelationship ir n₂
        (createRelationship ir n₁ (runOps initialStorage ops)).2).1.id >
        (createRelationship ir n₁ (runOps initialStorage ops)).1.id := by
  obtain ⟨hu, hd, hm, hr⟩ := storeInv_runOps ops initialStorage storeInv_initial
  refine ⟨?_, Nat.lt_succ_self _, ?_, Nat.lt_succ_self _, ?_, Nat.lt_succ_self _, ?_,
    Nat.lt_succ_self _⟩
  all_goals
    intro hmem
    obtain ⟨p, hp, hp₁⟩ := List.mem_map.mp hmem
  · exact absurd (hp₁ ▸ hu.1 p hp) (lt_irrefl _)
  · exact absurd (hp₁ ▸ hd.1 p hp) (lt_irrefl _)
  · exact absurd (hp₁ ▸ hm.1 p hp) (lt_irrefl _)
  · exact absurd (hp₁ ▸ hr.1 p hp) (lt_irrefl _)

/-- Witness for claim C4: after one dataset create, the next dataset id is
fresh and larger. -/
theorem create_ids_unique_monotone_witness :
    ((createDataset wInsertDataset 1 (runOps initialStorage
        [StoreOp.createDatasetOp wInsertDataset 0])).1.id ∉
      (runOps initialStorage
        [StoreOp.createDatasetOp wInsertDataset 0]).datasets.map Prod.fst) ∧
    (createDataset wInsertDataset 2 (createDataset wInsertDataset 1 (runOps
        initialStorage [StoreOp.createDatasetOp wInsertDataset 0])).2).1.id >
      (createDataset wInsertDataset 1 (runOps initialStorage
        [StoreOp.createDatasetOp wInsertDataset 0])).1.id := by
  have h := create_ids_unique_monotone [StoreOp.createDatasetOp wInsertDataset 0]
    wInsertUser wInsertDataset wInsertModel wInsertRel 1 2
  exact ⟨h.2.2.1, h.2.2.2.1⟩

theorem mapGet_eq_of_mem_nodup (k : Nat) (x : α) (l : List (Nat × α))
    (hnd : (l.map Prod.fst).Nodup) (hmem : (k, x) ∈ l) : mapGet k l = some x := by
  induction l with
  | nil => simp at hmem
  | cons p rest ih =>
      obtain ⟨k₁, v₁⟩ := p
      simp only [List.map_cons, List.nodup_cons] at hnd
      rcases List.mem_cons.mp hmem with h | h
      · obtain ⟨hk, hx⟩ := Prod.mk.injEq .. ▸ h
        subst hk
        subst hx
        simp [mapGet]
      · have hk : ¬ k₁ = k := by
          intro hh
          subst hh
          exact hnd.1 (List.mem_map_of_mem Prod.fst h)
        simp [mapGet, hk, ih hnd.2 h]

theorem snd_mapSet_update (l : List (Nat × α)) (getId : α → Nat)
    (hnd : (l.map Prod.fst).Nodup) (hid : ∀ p ∈ l, getId p.2 = p.1)
    (k : Nat) (w : α) (hw : mapGet k l = some w) (u : α → α) :
    (mapSet k (u w) l).map Prod.snd =
      (l.map Prod.snd).map (fun x => if getId x = k then u x else x) := by
  rw [mapSet_eq_map_of_nodup k (u w) l hnd w hw, List.map_map, List.map_map]
  apply List.map_congr_left
  intro p hp
  by_cases hpk : p.1 = k
  · have hpmem : mapGet k l = some p.2 := by
      rw [← hpk]
      exact mapGet_eq_of_mem_nodup p.1 p.2 l hnd hp
    have hpw : p.2 = w := by
      rw [hpmem] at hw
      exact Option.some.inj hw
    have h₃ : getId w = k := hpw ▸ (hid p hp).trans hpk
    simp [Function.comp, hpk, hpw, h₃]
  · have h₂ : ¬ getId p.2 = k := fun hcon => hpk ((hid p hp).symm.trans hcon)
    simp [Function.comp, hpk, h₂]

theorem map_values_congr_of_get_none (l : List (Nat × α)) (getId : α → Nat)
    (hid : ∀ p ∈ l, getId p.2 = p.1) (k : Nat) (hk : mapGet k l = none) (u : α → α) :
    (l.map Prod.snd).map (fun x => if getId x = k then u x else x) = l.map Prod.snd := by
  rw [List.map_map]
  apply List.map_congr_left
  intro p hp
  have hne : ¬ p.1 = k := by
    intro hh
    rw [mapGet_eq_none_iff] at hk
    exact hk (hh ▸ List.mem_map_of_mem Prod.fst hp)
  have h₂ : ¬ getId p.2 = k := fun hcon => hne ((hid p hp).symm.trans hcon)
  simp [Function.comp, h₂]

/-- Claim C7: on every reachable store state, the list operations return
records in insertion order: a create appends its record at the end of the
listed sequence, and a status update maps the listed sequence in place,
changing only the status of the record with the matching id and no positions. -/
theorem list_insertion_order (ops : List StoreOp) (idt : InsertDataset)
    (im : InsertModel) (ir : InsertRelationship) (now id : Nat) (st : String) :
    getDatasets (createDataset idt now (runOps initialStorage ops)).2 =
      getDatasets (runOps initialStorage ops) ++
        [(createDataset idt now (runOps initialStorage ops)).1] ∧
    getModels (createModel im now (runOps initialStorage ops)).2 =
      getModels (runOps initialStorage ops) ++
        [(createModel im now (runOps initialStorage ops)).1] ∧
    getRelationships (createRelationship ir now (runOps initialStorage ops)).2 =
      getRelationships (runOps initialStorage ops) ++
        [(createRelationship ir now (runOps initialStorage ops)).1] ∧
    getDatasets (updateDatasetStatus id st (runOps initialStorage ops)).2 =
      (getDatasets (runOps initialStorage ops)).map
        (fun d => if d.id = id then { d with status := st } else d) ∧
    getRelationships (updateRelationshipStatus id st (runOps initialStorage ops)).2 =
      (getRelationships (runOps initialStorage ops)).map
        (fun r => if r.id = id then { r with status := st } else r) := by
  obtain ⟨hu, hd, hm, hr⟩ := storeInv_runOps ops initialStorage storeInv_initial
  refine ⟨?_, ?_, ?_, ?_, ?_⟩
  · have hfresh : (runOps initialStorage ops).datasetCurrentId ∉
        (runOps initialStorage ops).datasets.map Prod.fst := by
      intro hmem
      obtain ⟨p, hp, hp₁⟩ := List.mem_map.mp hmem
      exact absurd (hp₁ ▸ hd.1 p hp) (lt_irrefl _)
    simp only [getDatasets, createDataset]
    rw [mapSet_of_not_mem _ _ _ hfresh, List.map_append]
    rfl
  · have hfresh : (runOps initialStorage ops).modelCurrentId ∉
        (runOps initialStorage ops).models.map Prod.fst := by
      intro hmem
      obtain ⟨p, hp, hp₁⟩ := List.mem_map.mp hmem
      exact absurd (hp₁ ▸ hm.1 p hp) (lt_irrefl _)
    simp only [getModels, createModel]
    rw [mapSet_of_not_mem _ _ _ hfresh, List.map_append]
    rfl
  · have hfresh : (runOps initialStorage ops).relationshipCurrentId ∉
        (runOps initialStorage ops).relationships.map Prod.fst := by
      intro hmem
      obtain ⟨p, hp, hp₁⟩ := List.mem_map.mp hmem
      exact absurd (hp₁ ▸ hr.1 p hp) (lt_irrefl _)
    simp only [getRelationships, createRelationship]
    rw [mapSet_of_not_mem _ _ _ hfresh, List.map_append]
    rfl
  · cases hg : mapGet id (runOps initialStorage ops).datasets with
    | none =>
        have hstay : updateDatasetStatus id st (runOps initialStorage ops) =
            (none, runOps initialStorage ops) := by
          simp [updateDatasetStatus, hg]
        rw [hstay]
        exact (map_values_congr_of_get_none _ Dataset.id hd.2.2 id hg
          (fun d => { d with status := st })).symm
    | some w =>
        have hupd : (updateDatasetStatus id st (runOps initialStorage ops)).2 =
            { runOps initialStorage ops with
              datasets := mapSet id { w with status := st }
                (runOps initialStorage ops).datasets } := by
          simp [updateDatasetStatus, hg]
        rw [getDatasets, hupd]
        exact snd_mapSet_update _ Dataset.id hd.2.1 hd.2.2 id w hg
          (fun d => { d with status := st })
  · cases hg : mapGet id (runOps initialStorage ops).relationships with
    | none =>
        have hstay : updateRelationshipStatus id st (runOps initialStorage ops) =
            (none, runOps initialStorage ops) := by
          simp [updateRelationshipStatus, hg]
        rw [hstay]
        exact (map_values_congr_of_get_none _ Relationship.id hr.2.2 id hg
          (fun r => { r with status := st })).symm
    | some w =>
        have hupd : (updateRelationshipStatus id st (runOps initialStorage ops)).2 =
            { runOps initialStorage ops with
              relationships := mapSet id { w with status := st }
                (runOps initialStorage ops).relationships } := by
          simp [updateRelationshipStatus, hg]
        rw [getRelationships, hupd]
        exact snd_mapSet_update _ Relationship.id hr.2.1 hr.2.2 id w hg
          (fun r => { r with status := st })

theorem ilogAux_spec (b : Nat) (hb : 2 ≤ b) :
    ∀ fuel n, 1 ≤ n → n ≤ fuel →
      b ^ ilogAux b fuel n ≤ n ∧ n < b ^ (ilogAux b fuel n + 1) := by
  intro fuel
  induction fuel with
  | zero => intro n h₁ h₂; omega
  | succ fuel ih =>
      intro n h₁ h₂
      by_cases hnb : n < b
      · simp only [ilogAux, if_pos hnb]
        constructor
        · simpa using h₁
        · simpa using hnb
      · have hbn : b ≤ n := Nat.le_of_not_lt hnb
        have hdiv₁ : 1 ≤ n / b := (Nat.one_le_div_iff (by omega)).mpr hbn
        have hdivlt : n / b < n := Nat.div_lt_self (by omega) (by omega)
        have hdivfuel : n / b ≤ fuel := by omega
        obtain ⟨hl, hu⟩ := ih (n / b) hdiv₁ hdivfuel
        simp only [ilogAux, if_neg hnb]
        constructor
        · calc b ^ (ilogAux b fuel (n / b) + 1)
              = b ^ ilogAux b fuel (n / b) * b := by rw [pow_succ]
            _ ≤ n / b * b := Nat.mul_le_mul_right b hl
            _ ≤ n := Nat.div_mul_le_self n b
        · calc n < b ^ (ilogAux b fuel (n / b) + 1) * b :=
              (Nat.div_lt_iff_lt_mul (show 0 < b by omega)).mp hu
            _ = b ^ (ilogAux b fuel (n / b) + 1 + 1) := by ring

theorem ilog1024_spec (n : Nat) (h₁ : 1 ≤ n) :
    1024 ^ ilog1024 n ≤ n ∧ n < 1024 ^ (ilog1024 n + 1) :=
  ilogAux_spec 1024 (by omega) n n h₁ (le_refl n)

theorem ilog1024_eq (n i : Nat) (h₁ : 1 ≤ n) (hlo : 1024 ^ i ≤ n)
    (hhi : n < 1024 ^ (i + 1)) : ilog1024 n = i := by
  obtain ⟨hl, hu⟩ := ilog1024_spec n h₁
  by_contra hne
  rcases Nat.lt_or_ge (ilog1024 n) i with h | h
  · have hle : (1024 : Nat) ^ (ilog1024 n + 1) ≤ 1024 ^ i :=
      Nat.pow_le_pow_right (by omega) (by omega)
    omega
  · have hgt : i < ilog1024 n := by omega
    have hle : (1024 : Nat) ^ (i + 1) ≤ 1024 ^ ilog1024 n :=
      Nat.pow_le_pow_right (by omega) (by omega)
    omega

/-- Claim C6 fails as stated for byte counts of 1024 pow 5 and beyond: at
2 * 1024 pow 5 the computed unit index is 5, past the end of the five-element
unit array, so the output is "2 undefined" rather than a TB rendering such as
"2048 TB". -/
theorem formatFileSize_beyondTb_cex :
    formatFileSize (2 * 1024 ^ 5) = "2 undefined" ∧
    formatFileSize (2 * 1024 ^ 5) ≠ "2048 TB" := by
  have hi : ilog1024 (2 * 1024 ^ 5) = 5 :=
    ilog1024_eq (2 * 1024 ^ 5) 5 (by norm_num) (by norm_num) (by norm_num)
  have hfmt : formatFileSize (2 * 1024 ^ 5) =
      trimFixed2 ((200 * (2 * 1024 ^ 5) + 1024 ^ 5) / (2 * 1024 ^ 5)) ++ " " ++
        sizeUnit 5 := by
    rw [formatFileSize, if_neg (by norm_num), hi]
  rw [hfmt]
  norm_num [trimFixed2, sizeUnit, sizesList]
  exact ⟨by decide, by decide⟩

/-- Claim C6 amended: formatFileSize maps 0 to "0 Bytes", 1024 to "1 KB", 1536
to "1.5 KB" and 1073741824 to "1 GB"; and for every positive byte count below
1024 pow 5 it picks the largest of the five units whose base-1024 scaled value
is at least 1 and renders the scaled value rounded half-up to two decimals
with trailing zeros trimmed.  From 1024 pow 5 upward the index leaves the unit
array, so the stated unit choice no longer holds there. -/
theorem formatFileSize_spec :
    (formatFileSize 0 = "0 Bytes" ∧ formatFileSize 1024 = "1 KB" ∧
     formatFileSize 1536 = "1.5 KB" ∧ formatFileSize 1073741824 = "1 GB") ∧
    ∀ bytes, 1 ≤ bytes → bytes < 1024 ^ 5 →
      ∃ i, ilog1024 bytes = i ∧ i < 5 ∧ 1024 ^ i ≤ bytes ∧
        (∀ j, j < 5 → 1024 ^ j ≤ bytes → j ≤ i) ∧
        sizesList.get? i = some (sizeUnit i) ∧
        formatFileSize bytes =
          trimFixed2 ((200 * bytes + 1024 ^ i) / (2 * 1024 ^ i)) ++ " " ++ sizeUnit i := by
  constructor
  · refine ⟨rfl, ?_, ?_, ?_⟩
    · have hi : ilog1024 1024 = 1 := ilog1024_eq 1024 1 (by norm_num) (by norm_num)
        (by norm_num)
      rw [formatFileSize, if_neg (by norm_num), hi]
      norm_num [trimFixed2, sizeUnit, sizesList]
      decide
    · have hi : ilog1024 1536 = 1 := ilog1024_eq 1536 1 (by norm_num) (by norm_num)
        (by norm_num)
      rw [formatFileSize, if_neg (by norm_num), hi]
      norm_num [trimFixed2, sizeUnit, sizesList]
      decide
    · have hi : ilog1024 1073741824 = 3 := ilog1024_eq 1073741824 3 (by norm_num)
        (by norm_num) (by norm_num)
      rw [formatFileSize, if_neg (by norm_num), hi]
      norm_num [trimFixed2, sizeUnit, sizesList]
      decide
  · intro bytes h₁ h₅
    obtain ⟨hl, hu⟩ := ilog1024_spec bytes h₁
    have hi5 : ilog1024 bytes < 5 := by
      by_contra hge
      have : (1024 : Nat) ^ 5 ≤ 1024 ^ ilog1024 bytes :=
        Nat.pow_le_pow_right (by omega) (by omega)
      omega
    refine ⟨ilog1024 bytes, rfl, hi5, hl, ?_, ?_, ?_⟩
    · intro j hj5 hjle
      by_contra hji
      have : (1024 : Nat) ^ (ilog1024 bytes + 1) ≤ 1024 ^ j :=
        Nat.pow_le_pow_right (by omega) (by omega)
      omega
    · interval_cases h : ilog1024 bytes <;> rfl
    · rw [formatFileSize, if_neg (by omega)]

/-- Witness for claim C6 (amended) at the concrete byte count 5000. -/
theorem formatFileSize_spec_witness :
    formatFileSize 5000 =
      trimFixed2 ((200 * 5000 + 1024 ^ 1) / (2 * 1024 ^ 1)) ++ " " ++ sizeUnit 1 := by
  obtain ⟨i, hieq, _, _, _, _, hfmt⟩ := formatFileSize_spec.2 5000 (by norm_num)
    (by norm_num)
  have hi1 : i = 1 := by
    rw [← hieq]
    decide
  subst hi1
  exact hfmt

theorem cleanupFiles_disk (files : List TmpFile) (uf : String → Bool) :
    ∀ disk log, (cleanupFiles files uf disk log).1 =
      disk.filter (fun p => !((files.map TmpFile.path).contains p) || uf p) := by
  induction files with
  | nil =>
      intro disk log
      simp [cleanupFiles]
  | cons f rest ih =>
      intro disk log
      rw [cleanupFiles]
      by_cases hc : disk.contains f.path
      · cases huf : uf f.path with
        | true =>
            simp only [hc, if_true, huf]
            rw [ih]
            apply List.filter_congr
            intro p hp
            by_cases hpf : p = f.path
            · subst hpf
              simp [huf]
            · have hb : (p == f.path) = false := beq_false_of_ne hpf
              simp [List.contains_cons, hb, hpf]
        | false =>
            simp only [hc, if_true, huf]
            rw [if_neg Bool.false_ne_true, ih, List.filter_filter]
            apply List.filter_congr
            intro p hp
            by_cases hpf : p = f.path
            · subst hpf
              simp [huf]
            · have hb : (p == f.path) = false := beq_false_of_ne hpf
              simp [List.contains_cons, hb, hpf]
      · have hc₁ : disk.contains f.path = false := by
          simpa using hc
        simp only [hc₁]
        rw [if_neg Bool.false_ne_true, ih]
        apply List.filter_congr
        intro p hp
        have hpf : ¬ p = f.path := by
          intro hh
          subst hh
          exact hc (List.elem_iff.mpr hp)
        have hb : (p == f.path) = false := beq_false_of_ne hpf
        simp [List.contains_cons, hb, hpf]

theorem cleanupFiles_log_extends (files : List TmpFile) (uf : String → Bool) :
    ∀ disk log, ∃ ext, (cleanupFiles files uf disk log).2 = log ++ ext := by
  induction files with
  | nil =>
      intro disk log
      exact ⟨[], by simp [cleanupFiles]⟩
  | cons f rest ih =>
      intro disk log
      rw [cleanupFiles]
      by_cases hc : disk.contains f.path
      · cases huf : uf f.path with
        | true =>
            simp only [hc, if_true, huf]
            obtain ⟨ext, hext⟩ :=
              ih disk (log ++ ["Error deleting temp file: " ++ f.path])
            exact ⟨("Error deleting temp file: " ++ f.path) :: ext,
              by rw [hext, List.append_assoc]; rfl⟩
        | false =>
            simp only [hc, if_true, huf]
            rw [if_neg Bool.false_ne_true]
            exact ih _ log
      · have hc₁ : disk.contains f.path = false := by
          simpa using hc
        simp only [hc₁]
        rw [if_neg Bool.false_ne_true]
        exact ih disk log

theorem cleanupFiles_logs_failure (files : List TmpFile) (uf : String → Bool) :
    ∀ disk log f, f ∈ files → f.path ∈ disk → uf f.path = true →
      (cleanupFiles files uf disk log).2 ≠ [] := by
  induction files with
  | nil =>
      intro disk log f hf
      simp at hf
  | cons g rest ih =>
      intro disk log f hf hdisk huf
      rw [cleanupFiles]
      rcases List.mem_cons.mp hf with hfg | hfrest
      · subst hfg
        have hc : disk.contains f.path = true := List.elem_iff.mpr hdisk
        simp only [hc, if_true, huf]
        obtain ⟨ext, hext⟩ := cleanupFiles_log_extends rest uf disk
          (log ++ ["Error deleting temp file: " ++ f.path])
        rw [hext]
        intro hnil
        have h₁ := List.append_eq_nil.mp hnil
        have h₂ := List.append_eq_nil.mp h₁.1
        simp at h₂
      · by_cases hc : disk.contains g.path
        · cases hug : uf g.path with
          | true =>
              simp only [hc, if_true, hug]
              exact ih disk _ f hfrest hdisk huf
          | false =>
              simp only [hc, if_true, hug]
              rw [if_neg Bool.false_ne_true]
              have hne : ¬ f.path = g.path := fun hh => by
                rw [hh, hug] at huf
                exact Bool.noConfusion huf
              apply ih _ log f hfrest ?_ huf
              rw [List.mem_filter]
              exact ⟨hdisk, by simp [beq_false_of_ne hne]⟩
        · have hc₁ : disk.contains g.path = false := by
            simpa using hc
          simp only [hc₁]
          rw [if_neg Bool.false_ne_true]
          exact ih disk log f hfrest hdisk huf

theorem filter_cleanup_self (paths : List String) (uf : String → Bool) :
    paths.filter (fun p => !(paths.contains p) || uf p) = paths.filter uf := by
  apply List.filter_congr
  intro p hp
  simp [hp]

theorem ipfsUpload_resolves_disk (f₀ : TmpFile) (rest : List TmpFile) (key : String)
    (metadata : MetaField) (hm : metadata ≠ MetaField.invalidJson) (h : Option String)
    (uf : String → Bool) :
    (ipfsUploadRoute (f₀ :: rest) (some key) metadata (.resolves h) uf).disk =
      (((f₀ :: rest) ++ metaTmpFiles metadata).map TmpFile.path).filter uf := by
  cases metadata with
  | invalidJson => exact absurd rfl hm
  | absent =>
      cases h
      all_goals
        show (cleanupFiles ((f₀ :: rest) ++ metaTmpFiles MetaField.absent) uf
            ((f₀ :: rest).map TmpFile.path ++
              (metaTmpFiles MetaField.absent).map TmpFile.path) []).1 = _
        rw [cleanupFiles_disk, ← List.map_append]
        exact filter_cleanup_self _ uf
  | valid c =>
      cases h
      all_goals
        show (cleanupFiles ((f₀ :: rest) ++ metaTmpFiles (MetaField.valid c)) uf
            ((f₀ :: rest).map TmpFile.path ++
              (metaTmpFiles (MetaField.valid c)).map TmpFile.path) []).1 = _
        rw [cleanupFiles_disk, ← List.map_append]
        exact filter_cleanup_self _ uf

theorem ipfsUpload_resolves_log (f₀ : TmpFile) (rest : List TmpFile) (key : String)
    (metadata : MetaField) (hm : metadata ≠ MetaField.invalidJson) (h : Option String)
    (uf : String → Bool) (f : TmpFile) (hf : f ∈ (f₀ :: rest) ++ metaTmpFiles metadata)
    (huf : uf f.path = true) :
    (ipfsUploadRoute (f₀ :: rest) (some key) metadata (.resolves h) uf).log ≠ [] := by
  have hmem : f.path ∈ ((f₀ :: rest).map TmpFile.path ++
      (metaTmpFiles metadata).map TmpFile.path) := by
    rw [← List.map_append]
    exact List.mem_map_of_mem TmpFile.path hf
  cases metadata with
  | invalidJson => exact absurd rfl hm
  | absent =>
      cases h with
      | none =>
          show (cleanupFiles _ uf _ []).2 ≠ []
          exact cleanupFiles_logs_failure _ uf _ [] f hf (by simpa using hmem) huf
      | some hash =>
          show (cleanupFiles _ uf _ []).2 ≠ []
          exact cleanupFiles_logs_failure _ uf _ [] f hf (by simpa using hmem) huf
  | valid c =>
      cases h with
      | none =>
          show (cleanupFiles _ uf _ []).2 ≠ []
          exact cleanupFiles_logs_failure _ uf _ [] f hf (by simpa using hmem) huf
      | some hash =>
          show (cleanupFiles _ uf _ []).2 ≠ []
          exact cleanupFiles_logs_failure _ uf _ [] f hf (by simpa using hmem) huf

theorem ipfsUpload_resolves_response_indep (f₀ : TmpFile) (rest : List TmpFile)
    (key : String) (metadata : MetaField) (hm : metadata ≠ MetaField.invalidJson)
    (h : Option String) (uf : String → Bool) :
    (ipfsUploadRoute (f₀ :: rest) (some key) metadata (.resolves h) uf).response =
      (ipfsUploadRoute (f₀ :: rest) (some key) metadata (.resolves h)
        (fun _ => false)).response := by
  cases metadata with
  | invalidJson => exact absurd rfl hm
  | absent => cases h <;> rfl
  | valid c => cases h <;> rfl

theorem ipfsUpload_throws_disk (f₀ : TmpFile) (rest : List TmpFile) (key : String)
    (metadata : MetaField) (hm : metadata ≠ MetaField.invalidJson) (uf : String → Bool) :
    (ipfsUploadRoute (f₀ :: rest) (some key) metadata PinUpload.throws uf).disk =
      ((f₀ :: rest) ++ metaTmpFiles metadata).map TmpFile.path := by
  cases metadata with
  | invalidJson => exact absurd rfl hm
  | absent =>
      show (f₀ :: rest).map TmpFile.path ++
          (metaTmpFiles MetaField.absent).map TmpFile.path = _
      rw [← List.map_append]
  | valid c =>
      show (f₀ :: rest).map TmpFile.path ++
          (metaTmpFiles (MetaField.valid c)).map TmpFile.path = _
      rw [← List.map_append]

theorem ipfsUpload_noKey_disk (f₀ : TmpFile) (rest : List TmpFile)
    (metadata : MetaField) (pin : PinUpload) (uf : String → Bool) :
    (ipfsUploadRoute (f₀ :: rest) none metadata pin uf).disk =
      (f₀ :: rest).map TmpFile.path := rfl

theorem ipfsUpload_invalidMeta_disk (f₀ : TmpFile) (rest : List TmpFile) (key : String)
    (pin : PinUpload) (uf : String → Bool) :
    (ipfsUploadRoute (f₀ :: rest) (some key) MetaField.invalidJson pin uf).disk =
      (f₀ :: rest).map TmpFile.path := rfl

/-- Claim C5 fails as stated: on the invalid-metadata failure path the 400
response is sent while the uploaded temporary file is still on disk, because
the cleanup loop is placed after the pinning call and early returns skip it. -/
theorem ipfsUpload_metadataLeak_cex :
    (ipfsUploadRoute [{ path := "/tmp/u1", size := 10 }] (some "k")
        MetaField.invalidJson (.resolves (some "h")) (fun _ => false)).response =
      .failure 400 "Invalid metadata JSON" ∧
    (ipfsUploadRoute [{ path := "/tmp/u1", size := 10 }] (some "k")
        MetaField.invalidJson (.resolves (some "h")) (fun _ => false)).disk =
      ["/tmp/u1"] := ⟨rfl, rfl⟩

/-- Claim C5 amended: temporary files are deleted before the response only on
the paths reached after the pinning upload resolves (the success response and
the missing-Hash 500 alike): there every file whose unlink succeeds is
removed, and a failing unlink leaves its file and writes a log entry without
changing the response.  On the earlier failure paths - missing credential,
invalid metadata JSON, thrown upload - the temporary files are not deleted. -/
theorem ipfsUpload_cleanup_spec (reqFiles : List TmpFile) (key : String)
    (metadata : MetaField) (h : Option String) (uf : String → Bool) :
    (reqFiles ≠ [] → metadata ≠ MetaField.invalidJson →
      (ipfsUploadRoute reqFiles (some key) metadata (.resolves h) uf).disk =
        ((reqFiles ++ metaTmpFiles metadata).map TmpFile.path).filter uf ∧
      (ipfsUploadRoute reqFiles (some key) metadata (.resolves h)
          (fun _ => false)).disk = [] ∧
      (ipfsUploadRoute reqFiles (some key) metadata (.resolves h) uf).response =
        (ipfsUploadRoute reqFiles (some key) metadata (.resolves h)
          (fun _ => false)).response ∧
      (∀ f, f ∈ reqFiles ++ metaTmpFiles metadata → uf f.path = true →
        (ipfsUploadRoute reqFiles (some key) metadata (.resolves h) uf).log ≠ []) ∧
      (ipfsUploadRoute reqFiles (some key) metadata PinUpload.throws uf).disk =
        (reqFiles ++ metaTmpFiles metadata).map TmpFile.path) ∧
    (reqFiles ≠ [] →
      (ipfsUploadRoute reqFiles none metadata (.resolves h) uf).disk =
        reqFiles.map TmpFile.path ∧
      (ipfsUploadRoute reqFiles (some key) MetaField.invalidJson
          (.resolves h) uf).disk =
        reqFiles.map TmpFile.path) := by
  obtain hnil | ⟨f₀, rest, rfl⟩ : reqFiles = [] ∨ ∃ f₀ rest, reqFiles = f₀ :: rest := by
    cases reqFiles with
    | nil => exact Or.inl rfl
    | cons a l => exact Or.inr ⟨a, l, rfl⟩
  · exact ⟨fun hne _ => absurd hnil hne, fun hne => absurd hnil hne⟩
  · constructor
    · intro hne hm
      refine ⟨ipfsUpload_resolves_disk f₀ rest key metadata hm h uf, ?_,
        ipfsUpload_resolves_response_indep f₀ rest key metadata hm h uf,
        fun f hf huf => ipfsUpload_resolves_log f₀ rest key metadata hm h uf f hf huf,
        ipfsUpload_throws_disk f₀ rest key metadata hm uf⟩
      rw [ipfsUpload_resolves_disk f₀ rest key metadata hm h (fun _ => false)]
      simp
    · intro hne
      exact ⟨ipfsUpload_noKey_disk f₀ rest metadata (.resolves h) uf,
        ipfsUpload_invalidMeta_disk f₀ rest key (.resolves h) uf⟩

/-- Witness for claim C5 (amended) at a concrete request: with a working unlink
everything is cleaned up; with a failing unlink the failure is logged. -/
theorem ipfsUpload_cleanup_spec_witness :
    (ipfsUploadRoute [{ path := "/tmp/u1", size := 10 }] (some "k") MetaField.absent
        (.resolves (some "h")) (fun _ => false)).disk = [] ∧
    (ipfsUploadRoute [{ path := "/tmp/u1", size := 10 }] (some "k") MetaField.absent
        (.resolves (some "h")) (fun p => p == "/tmp/u1")).log ≠ [] := by
  obtain ⟨hall, _⟩ := ipfsUpload_cleanup_spec [{ path := "/tmp/u1", size := 10 }] "k"
    MetaField.absent (some "h") (fun p => p == "/tmp/u1")
  obtain ⟨_, hdisk, _, hlog, _⟩ := hall (by decide) (by decide)
  exact ⟨hdisk, hlog { path := "/tmp/u1", size := 10 } (by decide) (by decide)⟩
